import Mathlib

/-!
Verification of the StormGate core against its source.

The definitions below are shallow embeddings of the repository's code:

* `limiterLua` / `Consume` embed `limiter.lua` and `rl.Limiter.Consume`
  (the Redis token-bucket script and its Go wrapper).  Lua numbers and Go
  `float64` are modelled as rationals; Go `int64` as `ℤ`.
* `observe`, `rampStep`, `onAnomalyNewBurst` embed the spike detector in
  `cmd/protector/main.go` (`Detector.observe`, `Detector.onAnomaly`).
* `gateLimit` embeds the rate-limit middleware `RateLimiter.Limit` in
  `internal/middleware/ratelimit.go`; `clientIDFrom` / `clientIP` embed the
  identity extraction of the same file.

Definitions suffixed `…Spec` or `…Claim` are written from the specification's
words (not the code) and exist only to be compared with the code-derived
definitions.
-/

namespace Stormgate

/-! ## Token bucket: `limiter.lua` and `rl.Limiter.Consume` -/

/-- Bucket state stored in Redis: hash fields `tokens` and `ts` (unix ms). -/
structure BucketState where
  tokens : ℚ
  ts : ℤ
deriving Repr, DecidableEq

/-- Return value of the Lua script: `{allowed, tokens, retry_ms, reset_ms}`. -/
structure ScriptResult where
  allowed : Bool
  tokens : ℚ
  retryMs : ℤ
  resetMs : ℤ
deriving Repr, DecidableEq

/-- Lua rounding idiom `math.floor(x + 0.5)`. -/
def luaRound (q : ℚ) : ℤ := ⌊q + 1/2⌋

/-- `tokens` loaded from the store, with the absent state initialized to
`burst` (limiter.lua lines 19-22). -/
def luaPrevTokens (st : Option BucketState) (burst : ℚ) : ℚ :=
  match st with
  | none => burst
  | some s => s.tokens

/-- `ts` loaded from the store, with the absent state initialized to
`now_ms` (limiter.lua lines 19-22). -/
def luaPrevTs (st : Option BucketState) (nowMs : ℤ) : ℤ :=
  match st with
  | none => nowMs
  | some s => s.ts

/-- `local elapsed = (now_ms - ts) / 1000.0; if elapsed < 0 then elapsed = 0 end`. -/
def luaElapsed (st : Option BucketState) (nowMs : ℤ) : ℚ :=
  let e : ℚ := ((nowMs - luaPrevTs st nowMs : ℤ) : ℚ) / 1000
  if e < 0 then 0 else e

/-- `tokens = math.min(burst, tokens + elapsed * rate)` (limiter.lua line 29). -/
def luaRefill (st : Option BucketState) (nowMs : ℤ) (rate burst : ℚ) : ℚ :=
  min burst (luaPrevTokens st burst + luaElapsed st nowMs * rate)

/-- The whole body of `limiter.lua`: refill, decide, persist, report.
Returns the script result and the state written back by `HMSET`. -/
def limiterLua (st : Option BucketState) (nowMs : ℤ) (rate burst cost : ℚ) :
    ScriptResult × BucketState :=
  let tokens1 := luaRefill st nowMs rate burst
  if cost ≤ tokens1 then
    let t2 := tokens1 - cost
    (⟨true, t2, 0, luaRound ((burst - t2) / max rate (1/10000) * 1000)⟩, ⟨t2, nowMs⟩)
  else
    (⟨false, tokens1, luaRound ((cost - tokens1) / rate * 1000),
      luaRound ((burst - tokens1) / max rate (1/10000) * 1000)⟩, ⟨tokens1, nowMs⟩)

/-- TTL set by the script: `max(1, floor(burst / max(rate, 0.0001) * 2 + 0.5))`. -/
def luaTTL (rate burst : ℚ) : ℤ :=
  let t := luaRound (burst / max rate (1/10000) * 2)
  if t < 1 then 1 else t

/-- Go `rl.Limiter.Consume`: validates the parameters and runs the script.
`none` models the `invalid limiter parameters` error. -/
def Consume (st : Option BucketState) (nowMs : ℤ) (rps : ℚ) (burst cost : ℤ) :
    Option (ScriptResult × BucketState) :=
  if rps ≤ 0 ∨ burst ≤ 0 ∨ cost ≤ 0 then none
  else some (limiterLua st nowMs rps (burst : ℚ) (cost : ℚ))

/-- The refilled token count as the spec words it:
`min(burst, tokens + max(0,(now_ms-ts)/1000)*rps)`, absent state initializing
`tokens := burst`, `ts := now_ms`. -/
def refilledTokens (st : Option BucketState) (nowMs : ℤ) (rps burst : ℚ) : ℚ :=
  min burst (luaPrevTokens st burst +
    max 0 (((nowMs - luaPrevTs st nowMs : ℤ) : ℚ) / 1000) * rps)

/-- One `Consume` call in a sequence: parameters of the Go wrapper. -/
structure ConsumeOp where
  nowMs : ℤ
  rps : ℚ
  burst : ℤ
  cost : ℤ
deriving Repr, DecidableEq

/-- The stored state after one `Consume` call; a parameter-validation error
leaves the state unchanged. -/
def consumeStep (st : Option BucketState) (op : ConsumeOp) : Option BucketState :=
  match Consume st op.nowMs op.rps op.burst op.cost with
  | none => st
  | some (_, st2) => some st2

/-- A sequence of `Consume` calls against one key, threading the stored
state. -/
def runConsume (st : Option BucketState) (ops : List ConsumeOp) : Option BucketState :=
  ops.foldl consumeStep st

/-! ## Spike detector: `Detector.observe` in `cmd/protector/main.go` -/

/-- Detector configuration fields used by `observe` (Go `Config`). -/
structure DetCfg where
  buckets : ℕ
  thresholdMultiplier : ℚ
  ewmaAlpha : ℚ
deriving Repr, DecidableEq

/-- Per-key window state (Go `bucketState`). -/
structure DetState where
  counts : List ℤ
  idx : ℕ
  tsSec : ℤ
  total : ℤ
  baseline : ℚ
deriving Repr, DecidableEq

/-- One iteration of the rotation loop:
`idx = (idx+1) % len; total -= counts[idx]; counts[idx] = 0`. -/
def rotateOnce (st : DetState) : DetState :=
  let idx2 := (st.idx + 1) % st.counts.length
  { st with idx := idx2,
            total := st.total - st.counts.getD idx2 0,
            counts := st.counts.set idx2 0 }

/-- The rotation loop run `n` times. -/
def rotateSteps : ℕ → DetState → DetState
  | 0, st => st
  | n + 1, st => rotateSteps n (rotateOnce st)

/-- Fresh per-key state created on first observation. -/
def freshDetState (buckets : ℕ) (nowSec : ℤ) : DetState :=
  ⟨List.replicate buckets 0, 0, nowSec, 0, 0⟩

/-- The state found under the per-key lock: the stored one, or a fresh one. -/
def initDetState (cfg : DetCfg) (st0 : Option DetState) (nowSec : ℤ) : DetState :=
  match st0 with
  | none => freshDetState cfg.buckets nowSec
  | some s => s

/-- Ring rotation (`observe` before the record): clamp `delta` at 0, full
reset when `delta ≥ len(counts)`, else rotate `delta` buckets; then
`tsSec := nowSec`. -/
def rotatePhase (nowSec : ℤ) (st : DetState) : DetState :=
  let delta : ℤ := max 0 (nowSec - st.tsSec)
  if 0 < delta then
    if (st.counts.length : ℤ) ≤ delta then
      { st with counts := List.replicate st.counts.length 0,
                total := 0, idx := 0, tsSec := nowSec }
    else
      { rotateSteps delta.toNat st with tsSec := nowSec }
  else st

/-- State initialization plus ring rotation. -/
def observeRotate (cfg : DetCfg) (st0 : Option DetState) (nowSec : ℤ) : DetState :=
  rotatePhase nowSec (initDetState cfg st0 nowSec)

/-- Record this request: `counts[idx]++; total++`. -/
def observeRecord (st : DetState) : DetState :=
  { st with counts := st.counts.set st.idx (st.counts.getD st.idx 0 + 1),
            total := st.total + 1 }

/-- `Detector.observe`: rotate, record, compare the post-increment total
against the pre-update EWMA baseline, then update the baseline.  The
metrics/sticky-set side effects of the anomalous branch do not touch the
window state and are not part of the returned state. -/
def observe (cfg : DetCfg) (st0 : Option DetState) (nowSec : ℤ) : Bool × DetState :=
  let st := observeRecord (observeRotate cfg st0 nowSec)
  let prev := st.baseline
  let isAnom := decide (cfg.thresholdMultiplier * max 1 prev < (st.total : ℚ))
  let baseline2 :=
    if prev = 0 then cfg.ewmaAlpha * (st.total : ℚ)
    else cfg.ewmaAlpha * (st.total : ℚ) + (1 - cfg.ewmaAlpha) * prev
  (isAnom, { st with baseline := baseline2 })

/-- The baseline as it stood before an `observe` call (0 for a fresh key). -/
def prevBaseline (st0 : Option DetState) : ℚ :=
  match st0 with
  | none => 0
  | some s => s.baseline

/-- Invariant of a per-key detector record. -/
def DetInv (buckets : ℕ) (st : DetState) : Prop :=
  st.total = st.counts.sum ∧ st.counts.length = buckets ∧ st.idx < buckets

/-- The stored per-key state after one `observe`. -/
def observeStep (cfg : DetCfg) (st : Option DetState) (nowSec : ℤ) : Option DetState :=
  some (observe cfg st nowSec).2

/-- A sequence of `Observe` calls for one `{route,client}` key. -/
def runObserve (cfg : DetCfg) (st : Option DetState) (times : List ℤ) :
    Option DetState :=
  times.foldl (observeStep cfg) st

/-! ## Rate-limit gate: `RateLimiter.Limit` in `internal/middleware/ratelimit.go`

The middleware is embedded as a function from the request-relevant inputs
(identity, block/override lookups, the two bucket states) to a `GateResult`
describing the HTTP decision and the stored states afterwards.  The decimal
string rendering of the numeric headers (`formatFloat`, `formatDuration`,
`formatSeconds`) is kept as raw numeric values in the result. -/

/-- A configured limit (`config.Limit`). -/
structure Limit where
  rps : ℚ
  burst : ℤ
  cost : ℤ
deriving Repr, DecidableEq

/-- A stored override (`rl.Override`, without the `exp` stamp). -/
structure OverrideRec where
  rps : ℤ
  burst : ℤ
  step : ℤ
deriving Repr, DecidableEq

/-- A stored block (`rl.Block`, without the `exp` stamp). -/
structure BlockRec where
  reason : String
deriving Repr, DecidableEq

/-- Gate-relevant configuration: the global client limit, the mitigation
rails and the allowlist patterns. -/
structure GateCfg where
  globalRPS : ℚ
  globalBurst : ℤ
  minRPS : ℚ
  minBurst : ℤ
  allowlist : List String
deriving Repr, DecidableEq

/-- One allowlist pattern test: exact, `"*"`, or `prefix*`. -/
def patMatches (pat clientID : String) : Bool :=
  pat == clientID || pat == "*" ||
    (pat.endsWith "*" && clientID.startsWith (pat.dropRight 1))

/-- `rl.IsAllowlisted`. -/
def IsAllowlisted (alist : List String) (clientID : String) : Bool :=
  alist.any (fun pat => patMatches pat clientID)

/-- Step 1 of `Limit`: effective route limits after applying a present
override and then the mitigation rails (lines 88-110).  Returns
`(effRPS, effBurst, overrideApplied)`. -/
def effectiveLimits (cfg : GateCfg) (mitWired allowlisted : Bool)
    (base : Limit) (ov : Option OverrideRec) : ℚ × ℤ × Bool :=
  if mitWired && !allowlisted then
    match ov with
    | some o =>
      let r1 : ℚ := if 0 < o.rps ∧ (o.rps : ℚ) < base.rps then (o.rps : ℚ) else base.rps
      let b1 : ℤ := if 0 < o.burst ∧ o.burst < base.burst then o.burst else base.burst
      let r2 : ℚ := if r1 < cfg.minRPS then cfg.minRPS else r1
      let b2 : ℤ := if b1 < cfg.minBurst then cfg.minBurst else b1
      (r2, b2, true)
    | none => (base.rps, base.burst, false)
  else (base.rps, base.burst, false)

/-- The gate's decision and the stored state afterwards.  `status = none`
and `passed = true` mean the request went to the downstream handler.
`globalAttempted` / `routeAttempted` record whether the corresponding
`Consume` call was made; `routeArgs` the `(rps, burst, cost)` passed to the
route bucket. -/
structure GateResult where
  status : Option ℕ
  body : Option String
  headers : List (String × String)
  clientHdrs : Option (ℚ × ℚ × ℤ)
  routeHdrs : Option (ℚ × ℚ × ℤ)
  retryAfterMs : Option ℤ
  globalSt : Option BucketState
  routeSt : Option BucketState
  globalAttempted : Bool
  routeAttempted : Bool
  routeArgs : Option (ℚ × ℤ × ℤ)
  passed : Bool
deriving Repr, DecidableEq

def bodyBlocked : String := "\x7b\"error\":\"blocked\"\x7d"

def bodyRateLimitedGlobal : String := "\x7b\"error\":\"rate_limited_global\"\x7d"

def bodyRateLimited : String := "\x7b\"error\":\"rate_limited\"\x7d"

/-- Steps 4-5 of `Limit` (lines 145-177): consume the route bucket with the
effective limits and decide; a limiter error fails open. -/
def gateRoute (base : Limit) (effRPS : ℚ) (effBurst : ℤ) (overrideApplied : Bool)
    (gAtt : Bool) (gHdrs : Option (ℚ × ℚ × ℤ)) (gSt2 rSt : Option BucketState)
    (nowMs : ℤ) : GateResult :=
  match Consume rSt nowMs effRPS effBurst base.cost with
  | none =>
    { status := none, body := none, headers := [], clientHdrs := gHdrs,
      routeHdrs := none, retryAfterMs := none, globalSt := gSt2, routeSt := rSt,
      globalAttempted := gAtt, routeAttempted := true,
      routeArgs := some (effRPS, effBurst, base.cost), passed := true }
  | some (res, rSt2) =>
    let hdr1 := [("X-StormGate", "protector")] ++
      (if overrideApplied then [("X-StormGate-Override", "1")] else [])
    if res.allowed then
      { status := none, body := none, headers := hdr1, clientHdrs := gHdrs,
        routeHdrs := some (effRPS, res.tokens, res.resetMs), retryAfterMs := none,
        globalSt := gSt2, routeSt := some rSt2, globalAttempted := gAtt,
        routeAttempted := true, routeArgs := some (effRPS, effBurst, base.cost),
        passed := true }
    else
      { status := some 429, body := some bodyRateLimited,
        headers := hdr1 ++ [("X-StormGate-Denied-By", "route"), ("Content-Type", "application/json")],
        clientHdrs := gHdrs, routeHdrs := some (effRPS, res.tokens, res.resetMs),
        retryAfterMs := if 0 < res.retryMs then some res.retryMs else none,
        globalSt := gSt2, routeSt := some rSt2, globalAttempted := gAtt,
        routeAttempted := true, routeArgs := some (effRPS, effBurst, base.cost),
        passed := false }

/-- Steps 2-3 of `Limit` (lines 112-143): consume the global client bucket
first when configured; a global denial returns without touching the route
bucket; a limiter error fails open into the route phase. -/
def gateGlobal (cfg : GateCfg) (base : Limit) (effRPS : ℚ) (effBurst : ℤ)
    (overrideApplied : Bool) (gSt rSt : Option BucketState) (nowMs : ℤ) :
    GateResult :=
  if 0 < cfg.globalRPS ∨ 0 < cfg.globalBurst then
    match Consume gSt nowMs cfg.globalRPS cfg.globalBurst base.cost with
    | none =>
      gateRoute base effRPS effBurst overrideApplied true none gSt rSt nowMs
    | some (gRes, gSt2) =>
      if gRes.allowed then
        gateRoute base effRPS effBurst overrideApplied true
          (some (cfg.globalRPS, gRes.tokens, gRes.resetMs)) (some gSt2) rSt nowMs
      else
        { status := some 429, body := some bodyRateLimitedGlobal,
          headers := [("X-StormGate", "protector"), ("X-StormGate-Denied-By", "global"),
            ("Content-Type", "application/json")],
          clientHdrs := some (cfg.globalRPS, gRes.tokens, gRes.resetMs),
          retryAfterMs := if 0 < gRes.retryMs then some gRes.retryMs else none,
          routeHdrs := none, globalSt := some gSt2, routeSt := rSt,
          globalAttempted := true, routeAttempted := false, routeArgs := none,
          passed := false }
  else
    gateRoute base effRPS effBurst overrideApplied false none gSt rSt nowMs

/-- The blocked short-circuit of step 0 (lines 77-86). -/
def gateBlocked (b : BlockRec) (gSt rSt : Option BucketState) : GateResult :=
  { status := some 429, body := some bodyBlocked,
    headers := [("X-StormGate", "protector"), ("X-StormGate-Block", b.reason),
      ("Content-Type", "application/json")],
    clientHdrs := none, routeHdrs := none, retryAfterMs := none,
    globalSt := gSt, routeSt := rSt, globalAttempted := false,
    routeAttempted := false, routeArgs := none, passed := false }

/-- `RateLimiter.Limit` on one request: block check, override application,
global bucket, route bucket. -/
def gateLimit (cfg : GateCfg) (mitWired : Bool) (base : Limit)
    (clientID : String) (blk : Option BlockRec) (ov : Option OverrideRec)
    (gSt rSt : Option BucketState) (nowMs : ℤ) : GateResult :=
  let allowlisted := IsAllowlisted cfg.allowlist clientID
  match (if mitWired && !allowlisted then blk else none) with
  | some b => gateBlocked b gSt rSt
  | none =>
    let e := effectiveLimits cfg mitWired allowlisted base ov
    gateGlobal cfg base e.1 e.2.1 e.2.2 gSt rSt nowMs

/-! ## Mitigation ramp: `Detector.onAnomaly` in `cmd/protector/main.go` -/

/-- Go `int64(x)` conversion of a float: truncation toward zero. -/
def truncQ (q : ℚ) : ℤ := if q < 0 then ⌈q⌉ else ⌊q⌋

/-- Go `clampInt` (and the shape of `clampFloat`). -/
def clampInt (minVal v maxVal : ℤ) : ℤ :=
  if v < minVal then minVal else if maxVal < v then maxVal else v

/-- `onAnomaly` step 1: `step := ov.Step + 1` if an override exists (looked
up only when the ramp is enabled), clamped into the steps list; `factor`
defaults to `0.5`.  For a negative stored step the Go code would panic on
the slice index; the embedding falls back to the `0.5` default there
(unreachable under the `0 ≤ step` hypothesis of the theorems below). -/
def rampStep (enabled : Bool) (steps : List ℚ) (existing : Option ℤ) : ℤ × ℚ :=
  if enabled then
    let step0 : ℤ := match existing with
      | some s => s + 1
      | none => 0
    if steps.isEmpty then (step0, 1/2)
    else
      let step1 : ℤ := if (steps.length : ℤ) ≤ step0 then (steps.length : ℤ) - 1 else step0
      (step1, steps.getD step1.toNat (1/2))
  else (0, 1/2)

/-- `onAnomaly` step 3 (line 1032):
`newBurst := clampInt(minBurst, int64(float64(base.Burst)*factor), base.Burst)`. -/
def onAnomalyNewBurst (enabled : Bool) (steps : List ℚ) (existing : Option ℤ)
    (minBurst baseBurst : ℤ) : ℤ :=
  clampInt minBurst (truncQ ((baseBurst : ℚ) * (rampStep enabled steps existing).2)) baseBurst

/-- The ramp step as the claim words it: `existing_override.step + 1` if an
override exists, else 0. -/
def claimStep (existing : Option ℤ) : ℤ :=
  match existing with
  | some s => s + 1
  | none => 0

/-- The ramp factor as the claim words it:
`steps[min(step, len(steps)-1)]` if the ramp is enabled and non-empty, else
`0.5`. -/
def claimFactor (enabled : Bool) (steps : List ℚ) (existing : Option ℤ) : ℚ :=
  if enabled = true ∧ steps.isEmpty = false then
    steps.getD (min (claimStep existing) ((steps.length : ℤ) - 1)).toNat (1/2)
  else 1/2

/-- The override burst exactly as C8 claims it: round to the *nearest*
integer before clamping.  This follows the spec's words, not the code. -/
def onAnomalyNewBurstClaim (enabled : Bool) (steps : List ℚ) (existing : Option ℤ)
    (minBurst baseBurst : ℤ) : ℤ :=
  clampInt minBurst (round (claimFactor enabled steps existing * (baseBurst : ℚ))) baseBurst

/-! ## Identity extraction: `clientIDFrom` / `clientIP` in ratelimit.go

String operations are modelled structurally over `List Char`.  Go's
`strings.TrimSpace` trims Unicode white space; the model trims the ASCII
subset, which the inputs of interest exercise.  `req.Header.Get` is
modelled as the request's header lookup function (MIME canonicalization of
the looked-up name is not modelled), with the empty string standing for an
absent header. -/

/-- An HTTP request as the middleware sees it: header lookup and peer
address. -/
structure Request where
  hget : String → String
  remoteAddr : String

/-- ASCII white space. -/
def isSpaceChar (c : Char) : Bool :=
  c == ' ' || c == '\t' || c == '\n' || c == '\r'

/-- `strings.TrimSpace` (ASCII). -/
def goTrim (s : String) : String :=
  String.mk (((s.data.dropWhile isSpaceChar).reverse.dropWhile isSpaceChar).reverse)

/-- ASCII lowercasing of one character. -/
def lowerChar (c : Char) : Char :=
  if 'A' ≤ c ∧ c ≤ 'Z' then Char.ofNat (c.toNat + 32) else c

/-- `strings.ToLower` (ASCII). -/
def goToLower (s : String) : String := String.mk (s.data.map lowerChar)

/-- Does the second list start with the first one? -/
def startsWithChars : List Char → List Char → Bool
  | [], _ => true
  | _ :: _, [] => false
  | p :: ps, c :: cs => p == c && startsWithChars ps cs

/-- Everything after the first `c` (`strings.SplitN(s, ":", 2)[1]`; only
evaluated under the `header:` guard, so a separator is present). -/
def afterChar (c : Char) : List Char → List Char
  | [] => []
  | x :: rest => if x == c then rest else afterChar c rest

/-- `strings.Split` on a one-character separator. -/
def splitOnChar (c : Char) : List Char → List (List Char)
  | [] => [[]]
  | x :: rest =>
    let r := splitOnChar c rest
    if x == c then [] :: r
    else
      match r with
      | [] => [[x]]
      | g :: gs => (x :: g) :: gs

/-- Index of the last `c` in `cs`. -/
def lastIdxOf (c : Char) (cs : List Char) : Option ℕ :=
  match cs.reverse.findIdx? (· == c) with
  | none => none
  | some j => some (cs.length - 1 - j)

/-- `net.SplitHostPort`, modelled at the character level: the host part on
success, `none` on a malformed address (missing port, too many colons,
bracket errors). -/
def splitHostPort (s : String) : Option String :=
  let cs := s.data
  match lastIdxOf ':' cs with
  | none => none
  | some i =>
    if cs.headD ' ' == '[' then
      match cs.findIdx? (· == ']') with
      | none => none
      | some e =>
        if e + 1 = cs.length then none
        else if e + 1 = i then
          if (cs.drop 1).contains '[' then none
          else if (cs.drop (e + 1)).contains ']' then none
          else some (String.mk ((cs.drop 1).take (e - 1)))
        else none
    else
      let host := cs.take i
      if host.contains ':' then none
      else if cs.contains '[' then none
      else if cs.contains ']' then none
      else some (String.mk host)

/-- `clientIP` in ratelimit.go: the trimmed first `X-Forwarded-For` token
when that header is non-empty (used even when the token trims to empty),
else the host part of `RemoteAddr`, else `RemoteAddr` itself. -/
def clientIP (req : Request) : String :=
  let xff := req.hget "X-Forwarded-For"
  if xff ≠ "" then
    goTrim (String.mk ((splitOnChar ',' xff.data).headD []))
  else
    match splitHostPort req.remoteAddr with
    | some host => host
    | none => req.remoteAddr

/-- `RateLimiter.clientIDFrom`: the configured header's value (header name
trimmed, value used as returned), else `clientIP`, else `"anon"`. -/
def clientIDFrom (source : String) (req : Request) : String :=
  let id0 : String :=
    if startsWithChars "header:".data (goToLower source).data then
      let v := req.hget (goTrim (String.mk (afterChar ':' source.data)))
      if v ≠ "" then v else ""
    else ""
  let id1 := if id0 = "" then clientIP req else id0
  if id1 = "" then "anon" else id1

/-- `IdentityOf` exactly as C9 claims it: trimmed header value when the
source is `header:<Name>` (case-insensitive) and the header non-empty; else
the first comma-separated token of `X-Forwarded-For` trimmed, if non-empty;
else the host part of the peer address; else the literal `"anon"`.  This
follows the spec's words, not the code. -/
def clientIDSpec (source : String) (req : Request) : String :=
  let hv : String :=
    if startsWithChars "header:".data (goToLower source).data then
      req.hget (goTrim (String.mk (afterChar ':' source.data)))
    else ""
  if hv ≠ "" then goTrim hv
  else
    let tok := goTrim (String.mk ((splitOnChar ',' (req.hget "X-Forwarded-For").data).headD []))
    if tok ≠ "" then tok
    else
      match splitHostPort req.remoteAddr with
      | some host => if host ≠ "" then host else "anon"
      | none => "anon"

/-- A request whose `X-Forwarded-For` first token trims to empty and whose
peer address is well-formed. -/
def reqXffEmptyTok : Request :=
  { hget := fun n => if n = "X-Forwarded-For" then " , 1.2.3.4" else "",
    remoteAddr := "9.9.9.9:80" }

/-- C9 amended: the identity is the named header's value as returned
(untrimmed) when the source is `header:<Name>` (case-insensitive) and the
value non-empty; else, when `X-Forwarded-For` is non-empty, its first
comma-separated token trimmed (used even when that trims to empty); else
the host part of the peer address when it parses as `host:port`, else the
peer address itself; an empty result becomes the literal `"anon"`. -/
def clientIDAmended (source : String) (req : Request) : String :=
  let hv : String :=
    if startsWithChars "header:".data (goToLower source).data then
      req.hget (goTrim (String.mk (afterChar ':' source.data)))
    else ""
  let ip : String :=
    if req.hget "X-Forwarded-For" ≠ "" then
      goTrim (String.mk ((splitOnChar ',' (req.hget "X-Forwarded-For").data).headD []))
    else
      match splitHostPort req.remoteAddr with
      | some host => host
      | none => req.remoteAddr
  let id := if hv ≠ "" then hv else ip
  if id = "" then "anon" else id

/-! ## Theorems -/

theorem luaElapsed_eq_max (st : Option BucketState) (nowMs : ℤ) :
    luaElapsed st nowMs = max 0 (((nowMs - luaPrevTs st nowMs : ℤ) : ℚ) / 1000) := by
  unfold luaElapsed
  set e : ℚ := ((nowMs - luaPrevTs st nowMs : ℤ) : ℚ) / 1000 with he
  by_cases h : e < 0
  · simp [h, max_eq_left (le_of_lt h)]
  · simp [h, max_eq_right (not_lt.mp h)]

theorem luaRefill_eq_refilledTokens (st : Option BucketState) (nowMs : ℤ)
    (rate burst : ℚ) :
    luaRefill st nowMs rate burst = refilledTokens st nowMs rate burst := by
  unfold luaRefill refilledTokens
  rw [luaElapsed_eq_max]

theorem luaElapsed_nonneg (st : Option BucketState) (nowMs : ℤ) :
    0 ≤ luaElapsed st nowMs := by
  rw [luaElapsed_eq_max]
  exact le_max_left 0 _

/-- `Consume` with valid parameters runs the script. -/
theorem Consume_valid (st : Option BucketState) (nowMs : ℤ) (rps : ℚ)
    (burst cost : ℤ) (hr : 0 < rps) (hb : 0 < burst) (hc : 0 < cost) :
    Consume st nowMs rps burst cost =
      some (limiterLua st nowMs rps (burst : ℚ) (cost : ℚ)) := by
  unfold Consume
  rw [if_neg]
  push_neg
  exact ⟨hr, hb, hc⟩

/-- C1: a denied `Consume` (refilled tokens strictly below cost, valid
parameters) returns `allowed = false` and
`retry_after_ms = round(1000·(cost - tokens1)/rps)`, and persists the refilled
token count undecremented with `ts := now_ms` (no rollback of the refill). -/
theorem consume_denial_persists_refill
    (st : Option BucketState) (nowMs : ℤ) (rps : ℚ) (burst cost : ℤ)
    (hr : 0 < rps) (hb : 0 < burst) (hc : 0 < cost)
    (hlt : refilledTokens st nowMs rps (burst : ℚ) < (cost : ℚ)) :
    ∃ res st2,
      Consume st nowMs rps burst cost = some (res, st2) ∧
      res.allowed = false ∧
      res.retryMs =
        round (1000 * ((cost : ℚ) - refilledTokens st nowMs rps (burst : ℚ)) / rps) ∧
      st2.tokens = refilledTokens st nowMs rps (burst : ℚ) ∧
      st2.ts = nowMs := by
  rw [Consume_valid st nowMs rps burst cost hr hb hc]
  unfold limiterLua
  rw [luaRefill_eq_refilledTokens]
  rw [if_neg (not_le.mpr hlt)]
  refine ⟨_, _, rfl, rfl, ?_, rfl, rfl⟩
  show luaRound (((cost : ℚ) - refilledTokens st nowMs rps (burst : ℚ)) / rps * 1000) = _
  rw [round_eq]
  unfold luaRound
  congr 1
  ring

/-- Witness for C1 at a concrete denied call. -/
theorem consume_denial_persists_refill_witness :
    ∃ res st2,
      Consume (some ⟨0, 0⟩) 0 1 5 3 = some (res, st2) ∧
      res.allowed = false ∧
      res.retryMs =
        round (1000 * ((((3 : ℤ)) : ℚ) - refilledTokens (some ⟨0, 0⟩) 0 1 ((5 : ℤ) : ℚ)) / 1) ∧
      st2.tokens = refilledTokens (some ⟨0, 0⟩) 0 1 ((5 : ℤ) : ℚ) ∧
      st2.ts = 0 :=
  consume_denial_persists_refill (some ⟨0, 0⟩) 0 1 5 3 (by norm_num) (by norm_num)
    (by norm_num) (by norm_num [refilledTokens, luaPrevTokens, luaPrevTs])

/-- Step fact for the bucket invariant: with valid parameters and a
nonnegative stored token count, the persisted token count stays in
`[0, burst]`. -/
theorem limiterLua_tokens_range (st : Option BucketState) (nowMs : ℤ)
    (rate burst cost : ℚ) (hr : 0 < rate) (hb : 0 < burst) (hc : 0 < cost)
    (h0 : ∀ s, st = some s → 0 ≤ s.tokens) :
    0 ≤ (limiterLua st nowMs rate burst cost).2.tokens ∧
    (limiterLua st nowMs rate burst cost).2.tokens ≤ burst := by
  have hprev : 0 ≤ luaPrevTokens st burst := by
    cases st with
    | none => exact le_of_lt hb
    | some s => exact h0 s rfl
  have hrefill0 : 0 ≤ luaRefill st nowMs rate burst := by
    unfold luaRefill
    exact le_min (le_of_lt hb)
      (add_nonneg hprev (mul_nonneg (luaElapsed_nonneg st nowMs) (le_of_lt hr)))
  have hrefillB : luaRefill st nowMs rate burst ≤ burst := min_le_left _ _
  unfold limiterLua
  by_cases h : cost ≤ luaRefill st nowMs rate burst
  · rw [if_pos h]
    exact ⟨sub_nonneg.mpr h, le_trans (sub_le_self _ (le_of_lt hc)) hrefillB⟩
  · rw [if_neg h]
    exact ⟨hrefill0, hrefillB⟩

theorem consumeStep_valid (st : Option BucketState) (op : ConsumeOp)
    (hr : 0 < op.rps) (hb : 0 < op.burst) (hc : 0 < op.cost) :
    consumeStep st op =
      some (limiterLua st op.nowMs op.rps (op.burst : ℚ) (op.cost : ℚ)).2 := by
  unfold consumeStep
  rw [Consume_valid st op.nowMs op.rps op.burst op.cost hr hb hc]

theorem runConsume_take_inv (ops : List ConsumeOp) :
    ∀ st0 : Option BucketState, (∀ s, st0 = some s → 0 ≤ s.tokens) →
      (∀ op ∈ ops, 0 < op.rps ∧ 0 < op.burst ∧ 0 < op.cost) →
      ∀ i, (hi : i < ops.length) →
        ∃ st, runConsume st0 (ops.take (i + 1)) = some st ∧
          0 ≤ st.tokens ∧ st.tokens ≤ ((ops.get ⟨i, hi⟩).burst : ℚ) := by
  induction ops with
  | nil => intro st0 _ _ i hi; exact absurd hi (by simp)
  | cons op rest ih =>
    intro st0 h0 hv i hi
    obtain ⟨hr, hb, hc⟩ := hv op (List.mem_cons_self op rest)
    have hbq : (0 : ℚ) < (op.burst : ℚ) := by exact_mod_cast hb
    have hcq : (0 : ℚ) < (op.cost : ℚ) := by exact_mod_cast hc
    have hstep := limiterLua_tokens_range st0 op.nowMs op.rps (op.burst : ℚ)
      (op.cost : ℚ) hr hbq hcq h0
    have hrun : ∀ l, runConsume st0 (op :: l) =
        runConsume (some (limiterLua st0 op.nowMs op.rps (op.burst : ℚ) (op.cost : ℚ)).2) l := by
      intro l
      unfold runConsume
      rw [List.foldl_cons, consumeStep_valid st0 op hr hb hc]
    cases i with
    | zero =>
      refine ⟨_, ?_, hstep.1, hstep.2⟩
      rw [List.take_succ_cons, List.take_zero, hrun]
      rfl
    | succ j =>
      have hj : j < rest.length := by
        simpa using Nat.lt_of_succ_lt_succ hi
      have hinv : ∀ s, (some (limiterLua st0 op.nowMs op.rps (op.burst : ℚ) (op.cost : ℚ)).2)
          = some s → 0 ≤ s.tokens := by
        intro s hs
        cases hs
        exact hstep.1
      obtain ⟨st, hst, hlo, hhi⟩ := ih
        (some (limiterLua st0 op.nowMs op.rps (op.burst : ℚ) (op.cost : ℚ)).2)
        hinv (fun o ho => hv o (List.mem_cons_of_mem op ho)) j hj
      refine ⟨st, ?_, hlo, ?_⟩
      · rw [List.take_succ_cons, hrun]
        exact hst
      · simpa using hhi

/-- C2: starting from the absent state, after each operation of any sequence
of valid `Consume` calls the stored token count satisfies
`0 ≤ tokens ≤ burst` for that operation's burst. -/
theorem bucket_tokens_in_range (ops : List ConsumeOp)
    (hv : ∀ op ∈ ops, 0 < op.rps ∧ 0 < op.burst ∧ 0 < op.cost)
    (i : ℕ) (hi : i < ops.length) :
    ∃ st, runConsume none (ops.take (i + 1)) = some st ∧
      0 ≤ st.tokens ∧ st.tokens ≤ ((ops.get ⟨i, hi⟩).burst : ℚ) :=
  runConsume_take_inv ops none (fun _ hs => by cases hs) hv i hi

/-- Witness for C2: two concrete calls, checking the bound after the second. -/
theorem bucket_tokens_in_range_witness :
    ∃ st, runConsume none (([⟨0, 1, 5, 3⟩, ⟨1000, 1, 5, 3⟩] : List ConsumeOp).take (1 + 1))
        = some st ∧
      0 ≤ st.tokens ∧
      st.tokens ≤ ((([⟨0, 1, 5, 3⟩, ⟨1000, 1, 5, 3⟩] : List ConsumeOp).get ⟨1, by norm_num⟩).burst : ℚ) :=
  bucket_tokens_in_range [⟨0, 1, 5, 3⟩, ⟨1000, 1, 5, 3⟩] (by decide) 1 (by norm_num)

/-- C10: with valid parameters, a cost strictly above the burst capacity is
denied regardless of elapsed time, for the absent state and for any stored
state within `[0, burst]`. -/
theorem consume_cost_above_burst_denied (st : Option BucketState) (nowMs : ℤ)
    (rps : ℚ) (burst cost : ℤ) (hr : 0 < rps) (hb : 0 < burst) (hc : 0 < cost)
    (_hst : ∀ s, st = some s → 0 ≤ s.tokens ∧ s.tokens ≤ (burst : ℚ))
    (hcb : burst < cost) :
    ∃ res st2, Consume st nowMs rps burst cost = some (res, st2) ∧
      res.allowed = false := by
  rw [Consume_valid st nowMs rps burst cost hr hb hc]
  have hlt : luaRefill st nowMs rps (burst : ℚ) < (cost : ℚ) :=
    lt_of_le_of_lt (min_le_left _ _) (by exact_mod_cast hcb)
  unfold limiterLua
  rw [if_neg (not_le.mpr hlt)]
  exact ⟨_, _, rfl, rfl⟩

/-- Witness for C10 at a concrete call with `cost > burst`. -/
theorem consume_cost_above_burst_denied_witness :
    ∃ res st2, Consume none 0 1 2 3 = some (res, st2) ∧ res.allowed = false :=
  consume_cost_above_burst_denied none 0 1 2 3 (by norm_num) (by norm_num)
    (by norm_num) (fun _ hs => by cases hs) (by norm_num)

theorem rotateOnce_baseline (st : DetState) :
    (rotateOnce st).baseline = st.baseline := rfl

theorem rotateSteps_baseline (n : ℕ) :
    ∀ st : DetState, (rotateSteps n st).baseline = st.baseline := by
  induction n with
  | zero => intro st; rfl
  | succ m ih =>
    intro st
    rw [rotateSteps, ih (rotateOnce st), rotateOnce_baseline]

theorem rotatePhase_baseline (nowSec : ℤ) (st : DetState) :
    (rotatePhase nowSec st).baseline = st.baseline := by
  simp only [rotatePhase]
  split
  · split
    · rfl
    · show (rotateSteps _ st).baseline = st.baseline
      rw [rotateSteps_baseline]
  · rfl

theorem initDetState_baseline (cfg : DetCfg) (st0 : Option DetState) (nowSec : ℤ) :
    (initDetState cfg st0 nowSec).baseline = prevBaseline st0 := by
  cases st0 with
  | none => rfl
  | some s => rfl

theorem observeRotate_baseline (cfg : DetCfg) (st0 : Option DetState) (nowSec : ℤ) :
    (observeRotate cfg st0 nowSec).baseline = prevBaseline st0 := by
  unfold observeRotate
  rw [rotatePhase_baseline, initDetState_baseline]

theorem observeRecord_baseline (st : DetState) :
    (observeRecord st).baseline = st.baseline := rfl

theorem observeRecord_total (st : DetState) :
    (observeRecord st).total = st.total + 1 := rfl

/-- C6: `observe` returns anomalous iff the post-increment window total
strictly exceeds `threshold_multiplier * max(1, prev)` where `prev` is the
baseline before the call, and the new baseline is the EWMA computed from
`prev` after that check. -/
theorem observe_check_before_update (cfg : DetCfg) (st0 : Option DetState)
    (nowSec : ℤ) :
    ((observe cfg st0 nowSec).1 = true ↔
      cfg.thresholdMultiplier * max 1 (prevBaseline st0) <
        (((observe cfg st0 nowSec).2.total : ℤ) : ℚ)) ∧
    (observe cfg st0 nowSec).2.baseline =
      (if prevBaseline st0 = 0 then
        cfg.ewmaAlpha * (((observe cfg st0 nowSec).2.total : ℤ) : ℚ)
       else
        cfg.ewmaAlpha * (((observe cfg st0 nowSec).2.total : ℤ) : ℚ) +
          (1 - cfg.ewmaAlpha) * prevBaseline st0) := by
  have hprev : (observeRecord (observeRotate cfg st0 nowSec)).baseline = prevBaseline st0 := by
    rw [observeRecord_baseline, observeRotate_baseline]
  have htot : (observe cfg st0 nowSec).2.total =
      (observeRecord (observeRotate cfg st0 nowSec)).total := rfl
  constructor
  · show decide _ = true ↔ _
    rw [decide_eq_true_iff, hprev, htot]
  · show (if (observeRecord (observeRotate cfg st0 nowSec)).baseline = 0 then _ else _) = _
    rw [hprev, htot]

theorem sum_set_getD (l : List ℤ) (i : ℕ) (a : ℤ) (h : i < l.length) :
    (l.set i a).sum = l.sum - l.getD i 0 + a := by
  induction l generalizing i with
  | nil => simp at h
  | cons x xs ih =>
    cases i with
    | zero => simp [List.set_cons_zero]; ring
    | succ j =>
      have hj : j < xs.length := by simpa using Nat.lt_of_succ_lt_succ h
      rw [List.set_cons_succ, List.sum_cons, List.sum_cons, ih j hj,
        List.getD_cons_succ]
      ring

theorem rotateOnce_inv (buckets : ℕ) (hb : 0 < buckets) (st : DetState)
    (h : DetInv buckets st) : DetInv buckets (rotateOnce st) := by
  obtain ⟨ht, hl, _⟩ := h
  have hlen0 : 0 < st.counts.length := hl ▸ hb
  have hidx2 : (st.idx + 1) % st.counts.length < st.counts.length :=
    Nat.mod_lt _ hlen0
  refine ⟨?_, ?_, ?_⟩
  · show st.total - st.counts.getD ((st.idx + 1) % st.counts.length) 0 =
      (st.counts.set ((st.idx + 1) % st.counts.length) 0).sum
    rw [sum_set_getD _ _ _ hidx2, ht]
    ring
  · show (st.counts.set _ 0).length = buckets
    rw [List.length_set, hl]
  · show (st.idx + 1) % st.counts.length < buckets
    exact hl ▸ hidx2

theorem rotateSteps_inv (buckets : ℕ) (hb : 0 < buckets) (n : ℕ) :
    ∀ st : DetState, DetInv buckets st → DetInv buckets (rotateSteps n st) := by
  induction n with
  | zero => intro st h; exact h
  | succ m ih =>
    intro st h
    exact ih (rotateOnce st) (rotateOnce_inv buckets hb st h)

theorem freshDetState_inv (buckets : ℕ) (hb : 0 < buckets) (nowSec : ℤ) :
    DetInv buckets (freshDetState buckets nowSec) := by
  refine ⟨?_, ?_, hb⟩ <;> simp [freshDetState]

theorem rotatePhase_inv (buckets : ℕ) (hb : 0 < buckets) (nowSec : ℤ)
    (st : DetState) (hst : DetInv buckets st) :
    DetInv buckets (rotatePhase nowSec st) := by
  simp only [rotatePhase]
  split
  · split
    · obtain ⟨_, hl, _⟩ := hst
      exact ⟨by simp, by simpa using hl, hb⟩
    · obtain ⟨h1, h2, h3⟩ := rotateSteps_inv buckets hb _ st hst
      exact ⟨h1, h2, h3⟩
  · exact hst

theorem observeRotate_inv (cfg : DetCfg) (hb : 0 < cfg.buckets)
    (st0 : Option DetState) (h : ∀ s, st0 = some s → DetInv cfg.buckets s)
    (nowSec : ℤ) : DetInv cfg.buckets (observeRotate cfg st0 nowSec) := by
  have hst : DetInv cfg.buckets (initDetState cfg st0 nowSec) := by
    cases st0 with
    | none => exact freshDetState_inv cfg.buckets hb nowSec
    | some s => exact h s rfl
  exact rotatePhase_inv cfg.buckets hb nowSec _ hst

theorem observeRecord_inv (buckets : ℕ) (st : DetState)
    (h : DetInv buckets st) : DetInv buckets (observeRecord st) := by
  obtain ⟨ht, hl, hi⟩ := h
  have hidx : st.idx < st.counts.length := hl ▸ hi
  refine ⟨?_, ?_, hi⟩
  · show st.total + 1 = (st.counts.set st.idx (st.counts.getD st.idx 0 + 1)).sum
    rw [sum_set_getD _ _ _ hidx, ht]
    ring
  · show (st.counts.set _ _).length = buckets
    rw [List.length_set, hl]

theorem observe_inv (cfg : DetCfg) (hb : 0 < cfg.buckets)
    (st0 : Option DetState) (h : ∀ s, st0 = some s → DetInv cfg.buckets s)
    (nowSec : ℤ) : DetInv cfg.buckets (observe cfg st0 nowSec).2 := by
  have hrec : DetInv cfg.buckets (observeRecord (observeRotate cfg st0 nowSec)) :=
    observeRecord_inv cfg.buckets _ (observeRotate_inv cfg hb st0 h nowSec)
  obtain ⟨h1, h2, h3⟩ := hrec
  exact ⟨h1, h2, h3⟩

theorem runObserve_take_inv (cfg : DetCfg) (hb : 0 < cfg.buckets)
    (times : List ℤ) :
    ∀ st0 : Option DetState, (∀ s, st0 = some s → DetInv cfg.buckets s) →
      ∀ i, i < times.length →
        ∃ st, runObserve cfg st0 (times.take (i + 1)) = some st ∧
          DetInv cfg.buckets st := by
  induction times with
  | nil => intro st0 _ i hi; exact absurd hi (by simp)
  | cons t rest ih =>
    intro st0 h0 i hi
    have hrun : ∀ l, runObserve cfg st0 (t :: l) =
        runObserve cfg (some (observe cfg st0 t).2) l := by
      intro l
      unfold runObserve
      rw [List.foldl_cons]
      rfl
    have hstep : DetInv cfg.buckets (observe cfg st0 t).2 :=
      observe_inv cfg hb st0 h0 t
    cases i with
    | zero =>
      refine ⟨_, ?_, hstep⟩
      rw [List.take_succ_cons, List.take_zero, hrun]
      rfl
    | succ j =>
      have hj : j < rest.length := by simpa using Nat.lt_of_succ_lt_succ hi
      obtain ⟨st, hst, hinv⟩ := ih (some (observe cfg st0 t).2)
        (fun s hs => by cases hs; exact hstep) j hj
      refine ⟨st, ?_, hinv⟩
      rw [List.take_succ_cons, hrun]
      exact hst

/-- C7: across any sequence of `Observe` calls with non-decreasing observed
seconds (the code in fact tolerates arbitrary times), the invariant
`total = sum(counts)` holds after each call, starting from the absent
per-key record. -/
theorem observe_total_eq_sum (cfg : DetCfg) (hb : 0 < cfg.buckets)
    (times : List ℤ) (_hmono : times.Chain' (· ≤ ·))
    (i : ℕ) (hi : i < times.length) :
    ∃ st, runObserve cfg none (times.take (i + 1)) = some st ∧
      st.total = st.counts.sum :=
  match runObserve_take_inv cfg hb times none (fun _ hs => by cases hs) i hi with
  | ⟨st, hst, hinv⟩ => ⟨st, hst, hinv.1⟩

/-- Witness for C7: three observations at seconds 0, 1, 5 with 3 buckets. -/
theorem observe_total_eq_sum_witness :
    ∃ st, runObserve ⟨3, 5, 1/5⟩ none (([0, 1, 5] : List ℤ).take (2 + 1)) = some st ∧
      st.total = st.counts.sum :=
  observe_total_eq_sum ⟨3, 5, 1/5⟩ (by norm_num) [0, 1, 5]
    (by norm_num [List.chain'_cons, List.chain'_singleton]) 2 (by norm_num)

theorem gateRoute_fields (base : Limit) (effRPS : ℚ) (effBurst : ℤ)
    (overrideApplied gAtt : Bool) (gHdrs : Option (ℚ × ℚ × ℤ))
    (gSt2 rSt : Option BucketState) (nowMs : ℤ) :
    (gateRoute base effRPS effBurst overrideApplied gAtt gHdrs gSt2 rSt nowMs).globalAttempted = gAtt ∧
    (gateRoute base effRPS effBurst overrideApplied gAtt gHdrs gSt2 rSt nowMs).routeAttempted = true ∧
    (gateRoute base effRPS effBurst overrideApplied gAtt gHdrs gSt2 rSt nowMs).routeArgs =
      some (effRPS, effBurst, base.cost) := by
  unfold gateRoute
  rcases hc : Consume rSt nowMs effRPS effBurst base.cost with _ | ⟨res, rSt2⟩ <;>
    simp only [hc]
  · simp
  · by_cases hr : res.allowed <;> simp [hr]

theorem ite_lt_eq_max {α : Type} [LinearOrder α] (m a : α) :
    (if a < m then m else a) = max m a := by
  rcases lt_or_le a m with h | h
  · rw [if_pos h, max_eq_left (le_of_lt h)]
  · rw [if_neg (not_lt.mpr h), max_eq_right h]

theorem ite_cond_lt_eq_min {α : Type} [LinearOrder α] (p : Prop) [Decidable p]
    (v b : α) :
    (if p ∧ v < b then v else b) = min b (if p then v else b) := by
  by_cases hp : p
  · by_cases hv : v < b
    · rw [if_pos ⟨hp, hv⟩, if_pos hp, min_eq_right (le_of_lt hv)]
    · rw [if_neg (fun hh => hv hh.2), if_pos hp, min_eq_left (not_lt.mp hv)]
  · rw [if_neg (fun hh => hp hh.1), if_neg hp, min_self]

/-- The conditional chain of lines 95-108 equals
`max(min_rails, min(base, override))` with the rails applied last. -/
theorem effectiveLimits_override (cfg : GateCfg) (base : Limit) (o : OverrideRec) :
    effectiveLimits cfg true false base (some o) =
      (max cfg.minRPS (min base.rps (if 0 < o.rps then (o.rps : ℚ) else base.rps)),
       max cfg.minBurst (min base.burst (if 0 < o.burst then o.burst else base.burst)),
       true) := by
  unfold effectiveLimits
  simp only [Bool.not_false, Bool.and_self, if_true]
  rw [ite_cond_lt_eq_min, ite_cond_lt_eq_min, ite_lt_eq_max, ite_lt_eq_max]

/-- C4: a present block for a non-allowlisted client short-circuits the
gate with status 429, body exactly the blocked JSON, the protector and
block-reason headers, and neither bucket consumed. -/
theorem gate_block_short_circuit (cfg : GateCfg) (base : Limit)
    (clientID : String) (b : BlockRec) (ov : Option OverrideRec)
    (gSt rSt : Option BucketState) (nowMs : ℤ)
    (ha : IsAllowlisted cfg.allowlist clientID = false) :
    (gateLimit cfg true base clientID (some b) ov gSt rSt nowMs).status = some 429 ∧
    (gateLimit cfg true base clientID (some b) ov gSt rSt nowMs).body = some bodyBlocked ∧
    ("X-StormGate", "protector") ∈ (gateLimit cfg true base clientID (some b) ov gSt rSt nowMs).headers ∧
    ("X-StormGate-Block", b.reason) ∈ (gateLimit cfg true base clientID (some b) ov gSt rSt nowMs).headers ∧
    (gateLimit cfg true base clientID (some b) ov gSt rSt nowMs).globalAttempted = false ∧
    (gateLimit cfg true base clientID (some b) ov gSt rSt nowMs).routeAttempted = false ∧
    (gateLimit cfg true base clientID (some b) ov gSt rSt nowMs).globalSt = gSt ∧
    (gateLimit cfg true base clientID (some b) ov gSt rSt nowMs).routeSt = rSt := by
  simp [gateLimit, ha, gateBlocked]

/-- Witness for C4 at a concrete blocked request. -/
theorem gate_block_short_circuit_witness :
    (gateLimit ⟨0, 0, 1, 1, []⟩ true ⟨1, 1, 1⟩ "alice" (some ⟨"repeat_offender"⟩) none none none 0).status = some 429 ∧
    (gateLimit ⟨0, 0, 1, 1, []⟩ true ⟨1, 1, 1⟩ "alice" (some ⟨"repeat_offender"⟩) none none none 0).body = some bodyBlocked ∧
    ("X-StormGate", "protector") ∈ (gateLimit ⟨0, 0, 1, 1, []⟩ true ⟨1, 1, 1⟩ "alice" (some ⟨"repeat_offender"⟩) none none none 0).headers ∧
    ("X-StormGate-Block", (⟨"repeat_offender"⟩ : BlockRec).reason) ∈ (gateLimit ⟨0, 0, 1, 1, []⟩ true ⟨1, 1, 1⟩ "alice" (some ⟨"repeat_offender"⟩) none none none 0).headers ∧
    (gateLimit ⟨0, 0, 1, 1, []⟩ true ⟨1, 1, 1⟩ "alice" (some ⟨"repeat_offender"⟩) none none none 0).globalAttempted = false ∧
    (gateLimit ⟨0, 0, 1, 1, []⟩ true ⟨1, 1, 1⟩ "alice" (some ⟨"repeat_offender"⟩) none none none 0).routeAttempted = false ∧
    (gateLimit ⟨0, 0, 1, 1, []⟩ true ⟨1, 1, 1⟩ "alice" (some ⟨"repeat_offender"⟩) none none none 0).globalSt = none ∧
    (gateLimit ⟨0, 0, 1, 1, []⟩ true ⟨1, 1, 1⟩ "alice" (some ⟨"repeat_offender"⟩) none none none 0).routeSt = none :=
  gate_block_short_circuit ⟨0, 0, 1, 1, []⟩ ⟨1, 1, 1⟩ "alice" ⟨"repeat_offender"⟩
    none none none 0 rfl

/-- A `Consume` call whose refilled token count is below the cost: the
explicit denial result. -/
theorem Consume_denied (st : Option BucketState) (nowMs : ℤ) (rps : ℚ)
    (burst cost : ℤ) (hr : 0 < rps) (hb : 0 < burst) (hc : 0 < cost)
    (hlt : refilledTokens st nowMs rps (burst : ℚ) < (cost : ℚ)) :
    Consume st nowMs rps burst cost =
      some (⟨false, refilledTokens st nowMs rps (burst : ℚ),
             luaRound (((cost : ℚ) - refilledTokens st nowMs rps (burst : ℚ)) / rps * 1000),
             luaRound (((burst : ℚ) - refilledTokens st nowMs rps (burst : ℚ)) / max rps (1/10000) * 1000)⟩,
            ⟨refilledTokens st nowMs rps (burst : ℚ), nowMs⟩) := by
  rw [Consume_valid st nowMs rps burst cost hr hb hc]
  unfold limiterLua
  rw [luaRefill_eq_refilledTokens]
  rw [if_neg (not_le.mpr hlt)]

/-- C3: with a configured global client limit, no block short-circuit, and a
global consume that denies (refilled global tokens below the cost), the gate
returns the 429 global contract and the route bucket consume is never
executed for that request (route state unchanged).  The route phase is only
reachable as the continuation of the global phase in `gateGlobal`, so the
global consume precedes the route consume by construction. -/
theorem gate_global_denial_skips_route (cfg : GateCfg) (mitWired : Bool)
    (base : Limit) (clientID : String) (blk : Option BlockRec)
    (ov : Option OverrideRec) (gSt rSt : Option BucketState) (nowMs : ℤ)
    (hr : 0 < cfg.globalRPS) (hb : 0 < cfg.globalBurst) (hc : 0 < base.cost)
    (hnb : (if mitWired && !(IsAllowlisted cfg.allowlist clientID) then blk else none) = none)
    (hlt : refilledTokens gSt nowMs cfg.globalRPS (cfg.globalBurst : ℚ) < (base.cost : ℚ)) :
    (gateLimit cfg mitWired base clientID blk ov gSt rSt nowMs).globalAttempted = true ∧
    (gateLimit cfg mitWired base clientID blk ov gSt rSt nowMs).globalSt =
      some ⟨refilledTokens gSt nowMs cfg.globalRPS (cfg.globalBurst : ℚ), nowMs⟩ ∧
    (gateLimit cfg mitWired base clientID blk ov gSt rSt nowMs).routeAttempted = false ∧
    (gateLimit cfg mitWired base clientID blk ov gSt rSt nowMs).routeSt = rSt ∧
    (gateLimit cfg mitWired base clientID blk ov gSt rSt nowMs).status = some 429 ∧
    (gateLimit cfg mitWired base clientID blk ov gSt rSt nowMs).body = some bodyRateLimitedGlobal ∧
    ("X-StormGate-Denied-By", "global") ∈ (gateLimit cfg mitWired base clientID blk ov gSt rSt nowMs).headers := by
  have hcons := Consume_denied gSt nowMs cfg.globalRPS cfg.globalBurst base.cost hr hb hc hlt
  simp only [gateLimit]
  rw [hnb]
  simp only [gateGlobal]
  rw [if_pos (show 0 < cfg.globalRPS ∨ 0 < cfg.globalBurst from Or.inl hr), hcons]
  simp

/-- Witness for C3: a denied global consume at a concrete request. -/
theorem gate_global_denial_skips_route_witness :
    (gateLimit ⟨1, 1, 1, 1, []⟩ false ⟨1, 1, 1⟩ "alice" none none (some ⟨0, 0⟩) none 0).globalAttempted = true ∧
    (gateLimit ⟨1, 1, 1, 1, []⟩ false ⟨1, 1, 1⟩ "alice" none none (some ⟨0, 0⟩) none 0).globalSt =
      some ⟨refilledTokens (some ⟨0, 0⟩) 0 1 (((1 : ℤ)) : ℚ), 0⟩ ∧
    (gateLimit ⟨1, 1, 1, 1, []⟩ false ⟨1, 1, 1⟩ "alice" none none (some ⟨0, 0⟩) none 0).routeAttempted = false ∧
    (gateLimit ⟨1, 1, 1, 1, []⟩ false ⟨1, 1, 1⟩ "alice" none none (some ⟨0, 0⟩) none 0).routeSt = none ∧
    (gateLimit ⟨1, 1, 1, 1, []⟩ false ⟨1, 1, 1⟩ "alice" none none (some ⟨0, 0⟩) none 0).status = some 429 ∧
    (gateLimit ⟨1, 1, 1, 1, []⟩ false ⟨1, 1, 1⟩ "alice" none none (some ⟨0, 0⟩) none 0).body = some bodyRateLimitedGlobal ∧
    ("X-StormGate-Denied-By", "global") ∈ (gateLimit ⟨1, 1, 1, 1, []⟩ false ⟨1, 1, 1⟩ "alice" none none (some ⟨0, 0⟩) none 0).headers :=
  gate_global_denial_skips_route ⟨1, 1, 1, 1, []⟩ false ⟨1, 1, 1⟩ "alice" none none
    (some ⟨0, 0⟩) none 0 (by norm_num) (by norm_num) (by norm_num) rfl
    (by norm_num [refilledTokens, luaPrevTokens, luaPrevTs])

theorem gateGlobal_routeArgs (cfg : GateCfg) (base : Limit) (eR : ℚ) (eB : ℤ)
    (oa : Bool) (gSt rSt : Option BucketState) (nowMs : ℤ)
    (hatt : (gateGlobal cfg base eR eB oa gSt rSt nowMs).routeAttempted = true) :
    (gateGlobal cfg base eR eB oa gSt rSt nowMs).routeArgs = some (eR, eB, base.cost) := by
  unfold gateGlobal at hatt ⊢
  by_cases hg : 0 < cfg.globalRPS ∨ 0 < cfg.globalBurst
  · rw [if_pos hg] at hatt ⊢
    rcases hc : Consume gSt nowMs cfg.globalRPS cfg.globalBurst base.cost with _ | ⟨gRes, gSt2⟩
    · exact (gateRoute_fields base eR eB oa true none gSt rSt nowMs).2.2
    · rw [hc] at hatt
      by_cases hhr : gRes.allowed = true
      · simp only [hhr, if_true]
        exact (gateRoute_fields base eR eB oa true _ (some gSt2) rSt nowMs).2.2
      · simp [hhr] at hatt
  · rw [if_neg hg] at hatt ⊢
    exact (gateRoute_fields base eR eB oa false none gSt rSt nowMs).2.2

/-- C5: whenever the route bucket is consumed for a non-allowlisted request
with a present override, the consume uses the effective limits
`max(min_rails, min(base, override))` with the rails applied last, and the
base cost. -/
theorem gate_override_rails (cfg : GateCfg) (base : Limit) (clientID : String)
    (blk : Option BlockRec) (o : OverrideRec) (gSt rSt : Option BucketState)
    (nowMs : ℤ) (ha : IsAllowlisted cfg.allowlist clientID = false)
    (hatt : (gateLimit cfg true base clientID blk (some o) gSt rSt nowMs).routeAttempted = true) :
    (gateLimit cfg true base clientID blk (some o) gSt rSt nowMs).routeArgs =
      some (max cfg.minRPS (min base.rps (if 0 < o.rps then (o.rps : ℚ) else base.rps)),
            max cfg.minBurst (min base.burst (if 0 < o.burst then o.burst else base.burst)),
            base.cost) := by
  cases blk with
  | some b =>
    have : (gateLimit cfg true base clientID (some b) (some o) gSt rSt nowMs).routeAttempted = false :=
      (gate_block_short_circuit cfg base clientID b (some o) gSt rSt nowMs ha).2.2.2.2.2.1
    rw [this] at hatt
    cases hatt
  | none =>
    simp only [gateLimit, ha, Bool.not_false, Bool.and_self, ite_self] at hatt ⊢
    rw [effectiveLimits_override cfg base o] at hatt ⊢
    exact gateGlobal_routeArgs cfg base _ _ _ gSt rSt nowMs hatt

/-- Witness for C5 at a concrete request with an override and no global
limit. -/
theorem gate_override_rails_witness :
    (gateLimit ⟨0, 0, 1, 1, []⟩ true ⟨2, 10, 1⟩ "alice" none (some ⟨1, 5, 0⟩) none none 0).routeArgs =
      some (max (1 : ℚ) (min 2 (if 0 < (1 : ℤ) then ((1 : ℤ) : ℚ) else 2)),
            max (1 : ℤ) (min 10 (if 0 < (5 : ℤ) then (5 : ℤ) else 10)),
            1) :=
  gate_override_rails ⟨0, 0, 1, 1, []⟩ ⟨2, 10, 1⟩ "alice" none ⟨1, 5, 0⟩ none none 0
    rfl
    (by
      show (gateRoute ⟨2, 10, 1⟩
        (effectiveLimits ⟨0, 0, 1, 1, []⟩ true false ⟨2, 10, 1⟩ (some ⟨1, 5, 0⟩)).1
        (effectiveLimits ⟨0, 0, 1, 1, []⟩ true false ⟨2, 10, 1⟩ (some ⟨1, 5, 0⟩)).2.1
        (effectiveLimits ⟨0, 0, 1, 1, []⟩ true false ⟨2, 10, 1⟩ (some ⟨1, 5, 0⟩)).2.2
        false none none none 0).routeAttempted = true
      exact (gateRoute_fields ⟨2, 10, 1⟩ _ _ _ false none none none 0).2.1)

/-- C8 counterexample: with the ramp disabled (`factor = 0.5`),
`min_burst = 1`, `base.burst = 5`, the code truncates `2.5` down to `2`
while the claim's round-to-nearest gives `3`. -/
theorem onAnomalyNewBurst_ne_claim :
    onAnomalyNewBurst false [] none 1 5 = 2 ∧
    onAnomalyNewBurstClaim false [] none 1 5 = 3 ∧
    onAnomalyNewBurst false [] none 1 5 ≠ onAnomalyNewBurstClaim false [] none 1 5 := by
  have h1 : onAnomalyNewBurst false [] none 1 5 = 2 := by
    unfold onAnomalyNewBurst rampStep truncQ clampInt
    norm_num [Int.floor_eq_iff]
  have h2 : onAnomalyNewBurstClaim false [] none 1 5 = 3 := by
    unfold onAnomalyNewBurstClaim claimFactor clampInt
    norm_num [round_eq, Int.floor_eq_iff]
  exact ⟨h1, h2, by rw [h1, h2]; decide⟩

/-- C8 amended: the override burst is
`clamp(min_burst, trunc(factor·base.burst), base.burst)` where `trunc`
truncates toward zero (Go `int64(float64(...))`), and `factor` is
`steps[min(step, len(steps)-1)]` when the ramp is enabled and non-empty,
else `0.5`. -/
theorem onAnomalyNewBurst_eq_trunc_clamp (enabled : Bool) (steps : List ℚ)
    (existing : Option ℤ) (minBurst baseBurst : ℤ)
    (hstep : ∀ s, existing = some s → 0 ≤ s) :
    onAnomalyNewBurst enabled steps existing minBurst baseBurst =
      clampInt minBurst
        (truncQ (claimFactor enabled steps existing * (baseBurst : ℚ))) baseBurst := by
  have hfac : (rampStep enabled steps existing).2 = claimFactor enabled steps existing := by
    cases enabled with
    | false =>
      unfold rampStep claimFactor
      simp
    | true =>
      by_cases hemp : steps.isEmpty = true
      · unfold rampStep claimFactor
        simp [hemp]
      · have hemp2 : steps.isEmpty = false := by
          cases h : steps.isEmpty
          · rfl
          · exact absurd h hemp
        have hlen : 0 < steps.length := by
          cases steps with
          | nil => simp at hemp2
          | cons a l => simp
        have hstep0 : 0 ≤ claimStep existing := by
          cases existing with
          | none => exact le_refl 0
          | some s =>
            have := hstep s rfl
            show 0 ≤ s + 1
            omega
        have harg : (if (steps.length : ℤ) ≤ claimStep existing
            then (steps.length : ℤ) - 1 else claimStep existing) =
            min (claimStep existing) ((steps.length : ℤ) - 1) := by
          by_cases hle : (steps.length : ℤ) ≤ claimStep existing
          · rw [if_pos hle, min_eq_right (by omega)]
          · rw [if_neg hle, min_eq_left (by omega)]
        have hL : (rampStep true steps existing).2 =
            steps.getD (if (steps.length : ℤ) ≤ claimStep existing
              then (steps.length : ℤ) - 1 else claimStep existing).toNat (1/2) := by
          unfold rampStep
          rw [if_pos rfl, if_neg hemp]
          rfl
        have hR : claimFactor true steps existing =
            steps.getD (min (claimStep existing) ((steps.length : ℤ) - 1)).toNat (1/2) := by
          unfold claimFactor
          rw [if_pos ⟨rfl, hemp2⟩]
        rw [hL, hR, harg]
  unfold onAnomalyNewBurst
  rw [hfac, mul_comm]

/-- Witness for the amended C8 at a concrete ramp step. -/
theorem onAnomalyNewBurst_eq_trunc_clamp_witness :
    onAnomalyNewBurst true [1/2, 1/4] (some 0) 1 4 =
      clampInt 1 (truncQ (claimFactor true [1/2, 1/4] (some 0) * ((4 : ℤ) : ℚ))) 4 :=
  onAnomalyNewBurst_eq_trunc_clamp true [1/2, 1/4] (some 0) 1 4
    (fun s hs => by cases hs; norm_num)

/-- C9 counterexample: the code uses the trimmed first `X-Forwarded-For`
token even when it is empty, yielding `"anon"`, while the claim's fallback
chain yields the peer host `"9.9.9.9"`. -/
theorem clientIDFrom_ne_spec :
    clientIDFrom "ip" reqXffEmptyTok = "anon" ∧
    clientIDSpec "ip" reqXffEmptyTok = "9.9.9.9" ∧
    clientIDFrom "ip" reqXffEmptyTok ≠ clientIDSpec "ip" reqXffEmptyTok := by
  refine ⟨?_, ?_, ?_⟩ <;> decide

/-- The amended C9 holds of the code for every request. -/
theorem clientIDFrom_eq_amended (source : String) (req : Request) :
    clientIDFrom source req = clientIDAmended source req := by
  unfold clientIDFrom clientIDAmended clientIP
  by_cases hsrc : startsWithChars "header:".data (goToLower source).data = true
  · simp only [hsrc, if_true]
    by_cases hv : req.hget (goTrim (String.mk (afterChar ':' source.data))) = ""
    · simp [hv]
    · simp [hv]
  · simp [hsrc]

end Stormgate
